import Mathlib

/-!
Verification of the trend-context pipeline of the repository
`Popularity-in-Socials-`.

Strings are modelled as `List Char`; Python numbers as `ℚ`; datetimes as
`ℤ` (microsecond ticks, the resolution of `datetime`).  Python exceptions
are modelled by the result type `PyResult`.  Each definition embeds the
source function named in its doc comment.
-/

set_option maxRecDepth 4000

/-- The ASCII apostrophe, used by Python `repr` of strings. -/
def pyQuote : Char := Char.ofNat 39

/-- String literal to character-list conversion helper. -/
def ltr (s : String) : List Char := s.toList

/-- Control characters removed by `sanitizer.py` line 43
(`re.sub(r'[\x00-\x1F\x7F]', '', value)`): code points 0x00-0x1F and 0x7F. -/
def isCtrlChar (c : Char) : Bool := c.toNat ≤ 0x1F || c.toNat == 0x7F

/-- Python `str.isprintable`, used by `sanitizer.py` line 49.  Modelled
faithfully on ASCII: printable iff the code point is at least 0x20 and not
0x7F.  Non-ASCII characters are treated as printable (true for all
non-ASCII characters outside the Unicode separator and "other"
categories; the claims below evaluate this predicate only on ASCII). -/
def pyIsPrintable (c : Char) : Bool := 0x20 ≤ c.toNat && c.toNat != 0x7F

/-- Python whitespace as recognised by `str.split()` / `str.strip()`:
modelled faithfully on ASCII and Latin-1 (tab through carriage return,
the file/group/record/unit separators 0x1C-0x1F, space, next-line 0x85 and
no-break space 0xA0). -/
def pyIsSpace (c : Char) : Bool :=
  (0x09 ≤ c.toNat && c.toNat ≤ 0x0D) || c.toNat == 0x20 ||
  (0x1C ≤ c.toNat && c.toNat ≤ 0x1F) || c.toNat == 0x85 || c.toNat == 0xA0

/-- Python `str.lower`, applied character-wise in
`sanitizer.py` line 120.  Modelled as the simple case mapping, faithful on
ASCII (the full Unicode mapping differs only on a handful of non-ASCII
code points, and never shortens a character). -/
def pyLower (c : Char) : Char :=
  if 0x41 ≤ c.toNat && c.toNat ≤ 0x5A then Char.ofNat (c.toNat + 32) else c

mutual

/-- Embeds `re.sub(r'<[^>]+>', '', value)` (`sanitizer.py` line 37 and
`trend_validator.py` line 55): remove every leftmost-first match of
`<[^>]+>`, scanning left to right. -/
def stripTags : List Char → List Char
  | [] => []
  | c :: rest => if c = '<' then openTag rest else c :: stripTags rest

/-- State after reading a `<`: the regex `<[^>]+>` needs at least one
character other than `>` before the closing `>`; on `<>` or `<` at the end
of input the match fails and the scan resumes one character after the
`<`, exactly as `re.sub` does. -/
def openTag : List Char → List Char
  | [] => ['<']
  | c :: rest =>
      if c = '>' then '<' :: '>' :: stripTags rest
      else inTag [c] rest

/-- State inside a candidate tag: `acc` holds the (reversed) characters
consumed so far, none of which is `>`.  Reaching the end of input means no
`>` occurs anywhere to the right of the opening `<`, so neither this `<`
nor any later position can start a match and every consumed character is
emitted unchanged. -/
def inTag (acc : List Char) : List Char → List Char
  | [] => '<' :: acc.reverse
  | c :: rest => if c = '>' then stripTags rest else inTag (c :: acc) rest

end

/-- Embeds `html.unescape` (`sanitizer.py` line 40), restricted to the
named character references `lt`, `gt`, `amp` and `quot` in their
semicolon-terminated form; any other text after `&` is left unchanged
(as `html.unescape` leaves unknown references unchanged; numeric
references and semicolon-free forms are outside the modelled fragment,
which is faithful on strings using only the references above). -/
def unescapeHtml : List Char → List Char
  | [] => []
  | '&' :: 'l' :: 't' :: ';' :: r => '<' :: unescapeHtml r
  | '&' :: 'g' :: 't' :: ';' :: r => '>' :: unescapeHtml r
  | '&' :: 'a' :: 'm' :: 'p' :: ';' :: r => '&' :: unescapeHtml r
  | '&' :: 'q' :: 'u' :: 'o' :: 't' :: ';' :: r => '"' :: unescapeHtml r
  | c :: r => c :: unescapeHtml r

/-- Embeds `unicodedata.normalize('NFKD', value)` (`sanitizer.py`
line 46).  Modelled as the identity, which is faithful on NFKD-invariant
characters — in particular on every ASCII character; the theorems that
rely on this identity carry an explicit ASCII hypothesis. -/
def nfkdNormalize : List Char → List Char := fun l => l

/-- Embeds Python `str.strip()` (`sanitizer.py` line 51): drop leading and
trailing whitespace. -/
def pyStrip (l : List Char) : List Char :=
  ((l.dropWhile pyIsSpace).reverse.dropWhile pyIsSpace).reverse

/-- Embeds the string pipeline of `TrendContextSanitizer.sanitize_string`
(`sanitizer.py` lines 36-51) on an actual string: strip tags, decode HTML
entities, remove control characters, NFKD-normalize, drop non-printable
characters, trim whitespace. -/
def sanitize_core (s : List Char) : List Char :=
  pyStrip (List.filter pyIsPrintable (nfkdNormalize
    (List.filter (fun c => !isCtrlChar c) (unescapeHtml (stripTags s)))))


/-- Embeds Python `str.split()` with no argument: split on runs of
whitespace, discarding empty pieces.  `cur` holds the (reversed)
characters of the word being read. -/
def pySplitAux (cur : List Char) : List Char → List (List Char)
  | [] => if cur.isEmpty then [] else [cur.reverse]
  | c :: rest =>
      if pyIsSpace c then
        if cur.isEmpty then pySplitAux [] rest
        else cur.reverse :: pySplitAux [] rest
      else pySplitAux (c :: cur) rest

/-- Python `str.split()` with no argument. -/
def pySplit (l : List Char) : List (List Char) := pySplitAux [] l

/-- Python `sep.join(pieces)`. -/
def joinSep (sep : List Char) : List (List Char) → List Char
  | [] => []
  | [x] => x
  | x :: xs => x ++ sep ++ joinSep sep xs


/-- Errors raised by the embedded Python code. -/
inductive PyErr where
  | valueError (msg : List Char)
  | typeError
  | attributeError
deriving DecidableEq

/-- Outcome of running a piece of Python code: a value, or a raised
exception. -/
inductive PyResult (α : Type) where
  | ok (val : α)
  | exn (err : PyErr)
deriving DecidableEq

/-- Python values, as far as the pipeline inspects them: strings, numbers
(`int`/`float`/`bool` collapsed into `ℚ`), `None`, lists and
string-keyed dictionaries. -/
inductive PyVal where
  | str (s : List Char)
  | num (q : ℚ)
  | pynone
  | list (xs : List PyVal)
  | dict (xs : List ((List Char) × PyVal))

/-- Whether a value is a string (`isinstance(value, str)`). -/
def PyVal.isStr : PyVal → Bool
  | .str _ => true
  | _ => false

/-- Whether a value is a dictionary (`isinstance(value, dict)`). -/
def PyVal.isDict : PyVal → Bool
  | .dict _ => true
  | _ => false

/-- Whether a value is `None` (`value is None`). -/
def PyVal.isNone : PyVal → Bool
  | .pynone => true
  | _ => false

/-- Python truthiness (`if kw`): empty strings, zero, `None` and empty
collections are falsy. -/
def pyTruthy : PyVal → Bool
  | .str s => !s.isEmpty
  | .num q => q != 0
  | .pynone => false
  | .list xs => !xs.isEmpty
  | .dict xs => !xs.isEmpty

/-- Decimal digits of a natural number; `fuel` bounds the recursion and is
always sufficient when instantiated by `pyNatRepr`. -/
def natDigits : Nat → Nat → List Char
  | 0, _ => []
  | f + 1, n =>
      if n < 10 then [Char.ofNat (48 + n)]
      else natDigits f (n / 10) ++ [Char.ofNat (48 + n % 10)]

/-- Python decimal rendering of a natural number. -/
def pyNatRepr (n : Nat) : List Char := natDigits (n + 1) n

/-- Python `str()` of a number.  Faithful for integers; a non-integer
rational is rendered as `num/den`, standing in for Python float `repr`
(no claim below depends on the rendering of non-integer numbers). -/
def pyNumRepr (q : ℚ) : List Char :=
  if q.den = 1 then
    (if q.num < 0 then '-' :: pyNatRepr q.num.natAbs else pyNatRepr q.num.natAbs)
  else
    (if q.num < 0 then '-' :: pyNatRepr q.num.natAbs else pyNatRepr q.num.natAbs)
      ++ '/' :: pyNatRepr q.den

mutual

/-- Python `repr` of a value, used by `str()` on lists and dictionaries;
strings are rendered between apostrophes (escaping inside string contents
is not modelled — no claim depends on it). -/
def pyRepr : PyVal → List Char
  | .str s => pyQuote :: s ++ [pyQuote]
  | .num q => pyNumRepr q
  | .pynone => ltr "None"
  | .list xs => '[' :: pyReprListJoin xs ++ [']']
  | .dict xs => Char.ofNat 123 :: pyReprDictJoin xs ++ [Char.ofNat 125]

/-- Comma-separated `repr` of the elements of a list. -/
def pyReprListJoin : List PyVal → List Char
  | [] => []
  | [v] => pyRepr v
  | v :: vs => pyRepr v ++ ltr ", " ++ pyReprListJoin vs

/-- Comma-separated `repr` of the entries of a dictionary. -/
def pyReprDictJoin : List ((List Char) × PyVal) → List Char
  | [] => []
  | [(k, v)] => pyQuote :: k ++ [pyQuote] ++ ltr ": " ++ pyRepr v
  | (k, v) :: vs =>
      pyQuote :: k ++ [pyQuote] ++ ltr ": " ++ pyRepr v ++ ltr ", " ++
        pyReprDictJoin vs

end

/-- Python `str(v)`: the string itself for strings, `repr` otherwise
(faithful for the value forms of `PyVal`). -/
def pyStr : PyVal → List Char
  | .str s => s
  | v => pyRepr v

namespace TrendContextSanitizer

/-- Embeds `TrendContextSanitizer.sanitize_string` (`sanitizer.py`
lines 17-51): non-string input yields the empty string, strings run
through `sanitize_core`.  The body performs no operation that can raise,
so the embedding is a total function. -/
def sanitize_string : PyVal → List Char
  | .str s => sanitize_core s
  | _ => []

/-- Keys retained by `TrendContextSanitizer.validate_trend_context`
(`sanitizer.py` line 68). -/
def allowed_keys : List (List Char) :=
  [ltr "name", ltr "volume", ltr "sentiment", ltr "keywords", ltr "description"]

/-- Embeds the value transformation of
`TrendContextSanitizer.validate_trend_context` (`sanitizer.py`
lines 75-86): strings are sanitized, numbers pass through, list items
other than `None` are stringified and sanitized, and any other value is
stored as its raw `str()`. -/
def sanitizeValue : PyVal → PyVal
  | .str s => .str (sanitize_core s)
  | .num q => .num q
  | .list xs =>
      .list ((xs.filter (fun item => !item.isNone)).map
        (fun item => .str (sanitize_core (pyStr item))))
  | v => .str (pyStr v)

/-- Embeds the key loop of `TrendContextSanitizer.validate_trend_context`
(`sanitizer.py` lines 70-86): keys outside `allowed_keys` are skipped,
retained values are transformed by `sanitizeValue`. -/
def svalidateLoop : List ((List Char) × PyVal) → List ((List Char) × PyVal)
  | [] => []
  | (k, v) :: rest =>
      if k ∈ allowed_keys then (k, sanitizeValue v) :: svalidateLoop rest
      else svalidateLoop rest

/-- Embeds `TrendContextSanitizer.validate_trend_context` (`sanitizer.py`
lines 53-88): a non-dictionary yields the empty dictionary. -/
def validate_trend_context : PyVal → PyVal
  | .dict xs => .dict (svalidateLoop xs)
  | _ => .dict []

end TrendContextSanitizer

/-- Python `d.get(key, default)` on a string-keyed dictionary (modelled as
a key-value list in insertion order, keys distinct). -/
def dictGet (d : List ((List Char) × PyVal)) (k : List Char) (dflt : PyVal) :
    PyVal :=
  match d.find? (fun p => p.1 == k) with
  | some p => p.2
  | none => dflt

/-- Embeds `value.split()` as called on `context.get('name', '')` and
`context.get('description', '')` (`sanitizer.py` lines 109-110): on a
string it splits on whitespace; on any other value Python raises
`AttributeError` (no `split` attribute). -/
def pySplitAttr : PyVal → PyResult (List (List Char))
  | .str s => .ok (pySplit s)
  | _ => .exn .attributeError

/-- Embeds the `for kw in source` iteration of `sanitizer.py`
lines 115-123 after the `isinstance(source, str)` normalization: a string
is first split into words, a list yields its items, a dictionary yields
its keys, and any other value raises `TypeError` (not iterable). -/
def iterSource : PyVal → PyResult (List PyVal)
  | .str s => .ok ((pySplit s).map .str)
  | .list xs => .ok xs
  | .dict xs => .ok (xs.map (fun p => .str p.1))
  | _ => .exn .typeError

/-- Embeds the candidate filter of `sanitizer.py` lines 119-123: keep
`kw` when it is truthy and `len(sanitize_string(str(kw))) > 1`, and
contribute `sanitize_string(str(kw)).lower()`. -/
def keywordCandidates (items : List PyVal) : List (List Char) :=
  items.filterMap (fun kw =>
    if pyTruthy kw && decide (1 < (sanitize_core (pyStr kw)).length) then
      some ((sanitize_core (pyStr kw)).map pyLower)
    else none)

namespace TrendContextSanitizer

/-- Embeds the keyword gathering of `TrendContextSanitizer.extract_keywords`
(`sanitizer.py` lines 106-123): the `keyword_sources` list is built first
(so a non-string `name` or `description` raises `AttributeError` before
iteration), then each source is iterated with the
`isinstance(source, str)` split normalization and filtered. -/
def keywordPool (d : List ((List Char) × PyVal)) :
    PyResult (List (List Char)) :=
  match pySplitAttr (dictGet d (ltr "name") (.str [])) with
  | .exn e => .exn e
  | .ok nameWords =>
    match pySplitAttr (dictGet d (ltr "description") (.str [])) with
    | .exn e => .exn e
    | .ok descWords =>
      match iterSource (dictGet d (ltr "keywords") (.list [])) with
      | .exn e => .exn e
      | .ok kwItems =>
        .ok (keywordCandidates kwItems ++
             keywordCandidates (nameWords.map .str) ++
             keywordCandidates (descWords.map .str))

end TrendContextSanitizer

/-- Embeds `list(dict.fromkeys(keywords))` (`sanitizer.py` line 126):
deduplicate keeping the first occurrence of each element; `seen` holds the
elements already emitted. -/
def dedupFirstAux (seen : List (List Char)) :
    List (List Char) → List (List Char)
  | [] => []
  | x :: xs =>
      if x ∈ seen then dedupFirstAux seen xs
      else x :: dedupFirstAux (x :: seen) xs

/-- Deduplication preserving first-seen order, as `list(dict.fromkeys(·))`. -/
def dedupFirst (l : List (List Char)) : List (List Char) := dedupFirstAux [] l

namespace TrendContextSanitizer

/-- Embeds `TrendContextSanitizer.extract_keywords` (`sanitizer.py`
lines 90-127): non-dictionary input or `max_keywords <= 0` yields the
empty list; otherwise the gathered candidates are deduplicated
first-seen and truncated to `max_keywords`. -/
def extract_keywords (context : PyVal) (max_keywords : ℤ) :
    PyResult (List (List Char)) :=
  match context with
  | .dict d =>
      if max_keywords ≤ 0 then .ok []
      else
        match keywordPool d with
        | .exn e => .exn e
        | .ok pool => .ok ((dedupFirst pool).take max_keywords.toNat)
  | _ => .ok []

end TrendContextSanitizer


/-- Parse of a decimal digit run into a natural number. -/
def natOfDigits (l : List Char) : Nat :=
  l.foldl (fun n c => 10 * n + (c.toNat - 48)) 0

/-- Whether a character is an ASCII decimal digit. -/
def isDigitC (c : Char) : Bool := 48 ≤ c.toNat && c.toNat ≤ 57

/-- Parse of an unsigned decimal literal (`123`, `123.45`, `.5`, `5.`)
into a rational. -/
def parseUnsigned (s : List Char) : Option ℚ :=
  let intPart := s.takeWhile isDigitC
  let rest := s.dropWhile isDigitC
  match rest with
  | [] => if intPart.isEmpty then none else some (natOfDigits intPart)
  | '.' :: frac =>
      if frac.all isDigitC && !(intPart.isEmpty && frac.isEmpty) then
        some ((natOfDigits intPart : ℚ) +
              (natOfDigits frac : ℚ) / ((10 : ℚ) ^ frac.length))
      else none
  | _ => none

/-- Embeds Python `float(·)` on a string: surrounding whitespace is
stripped, then an optionally signed decimal literal is parsed.  Faithful
on plain decimal forms; exponent, `inf`/`nan` and underscore forms are
outside the modelled fragment (no claim depends on them). -/
def parsePyFloat (s : List Char) : Option ℚ :=
  match pyStrip s with
  | '-' :: r => (parseUnsigned r).map (fun q => -q)
  | '+' :: r => parseUnsigned r
  | r => parseUnsigned r

/-- Embeds Python `float(score)` (`trend_validator.py` line 77): numbers
coerce to themselves, numeric strings parse (raising `ValueError`
otherwise), and `None`, lists and dictionaries raise `TypeError`. -/
def pyFloatCoerce : PyVal → PyResult ℚ
  | .num q => .ok q
  | .str s =>
      match parsePyFloat s with
      | some q => .ok q
      | none => .exn (.valueError (ltr "could not convert string to float"))
  | _ => .exn .typeError

namespace TrendContextValidator

/-- Embeds `TrendContextValidator._validate_topic` (`trend_validator.py`
lines 40-63): non-strings raise; the topic is tag-stripped, whitespace is
collapsed by `' '.join(topic.split())`, the result is truncated to 200
characters, and an empty result raises. -/
def validate_topic : PyVal → PyResult (List Char)
  | .str topic =>
      let s := (joinSep [' '] (pySplit (stripTags topic))).take 200
      if s.isEmpty then
        .exn (.valueError (ltr "Topic cannot be empty after sanitization"))
      else .ok s
  | _ => .exn (.valueError (ltr "Topic must be a string"))

/-- Embeds `TrendContextValidator._validate_relevance_score`
(`trend_validator.py` lines 65-82): a failed `float(score)` raises
`ValueError("Relevance score must be a number")`; a successful coercion is
clamped by `max(0, min(100, score))` and returned. -/
def validate_relevance_score (score : PyVal) : PyResult ℚ :=
  match pyFloatCoerce score with
  | .ok q => .ok (max 0 (min 100 q))
  | .exn _ => .exn (.valueError (ltr "Relevance score must be a number"))

end TrendContextValidator

/-- One day in the microsecond ticks of the `datetime` model. -/
def microsPerDay : ℤ := 86400000000

/-- The `timedelta(days=365)` freshness window of `trend_validator.py`
line 105, in microsecond ticks. -/
def days365 : ℤ := 365 * microsPerDay

/-- The `timestamp` argument of `_validate_timestamp`: absent (`None`), an
actual `datetime` (a tick count), or any other value — which Python
stringifies and feeds to `datetime.fromisoformat`, an operation modelled
by its outcome (`some` parsed ticks, or `none` for a parse failure). -/
inductive TsInput where
  | noneV
  | dtV (t : ℤ)
  | rawV (parsed : Option ℤ)
deriving DecidableEq

namespace TrendContextValidator

/-- Embeds `TrendContextValidator._validate_timestamp`
(`trend_validator.py` lines 84-110), relative to the current time `now`:
`None` yields `now` (`datetime.utcnow()`); otherwise the value must be or
parse to a datetime `t` with `now - 365 days ≤ t ≤ now`.  A parse failure
raises, and the out-of-range `ValueError` raised inside the `try` block is
caught by the `except` clause and re-raised as
`ValueError("Invalid timestamp format")`, so every failure carries that
message. -/
def validate_timestamp (now : ℤ) : TsInput → PyResult ℤ
  | .noneV => .ok now
  | .dtV t =>
      if t > now ∨ t < now - days365 then
        .exn (.valueError (ltr "Invalid timestamp format"))
      else .ok t
  | .rawV none => .exn (.valueError (ltr "Invalid timestamp format"))
  | .rawV (some t) =>
      if t > now ∨ t < now - days365 then
        .exn (.valueError (ltr "Invalid timestamp format"))
      else .ok t

end TrendContextValidator

/-- Embeds the dataclass `TrendMetadata` (`trend_context.py` lines 6-20).
`additional_info` is a string-keyed mapping whose values the pipeline
only ever reads as numbers (the mock source reads `volume`), so they are
modelled as `ℚ`; `none` models `additional_info=None`. -/
structure TrendMetadata where
  name : List Char
  score : ℚ
  timestamp : ℤ
  additional_info : Option (List ((List Char) × ℚ)) := none
deriving DecidableEq

/-- Embeds a trend source as `TrendContext.update_trends` uses one
(`trend_context.py` lines 100-113): `fetch_trends` is called with no
argument and either returns records or raises; `score_trend` scores one
record or raises.  Both exceptions are caught by the `except` clause of
the update loop. -/
structure PySource where
  fetch_trends : PyResult (List TrendMetadata)
  score_trend : TrendMetadata → PyResult ℚ

/-- Embeds `ITrendSource.filter_trends` (`trend_context.py` lines 58-71):
`[trend for trend in trends if trend.score >= min_score]`. -/
def filter_trends (trends : List TrendMetadata) (min_score : ℚ) :
    List TrendMetadata :=
  trends.filter (fun t => decide (min_score ≤ t.score))

/-- Error-propagating map, as a Python list comprehension: the first
raised exception aborts the whole comprehension. -/
def pyMapM {α β : Type} (f : α → PyResult β) : List α → PyResult (List β)
  | [] => .ok []
  | x :: xs =>
      match f x with
      | .exn e => .exn e
      | .ok y =>
          match pyMapM f xs with
          | .exn e => .exn e
          | .ok ys => .ok (y :: ys)

/-- Embeds the fetch-and-score part of the `try` block of
`TrendContext.update_trends` (`trend_context.py` lines 102-111): fetch the
source's records, then rebuild each as
`TrendMetadata(name=.., score=source.score_trend(trend), timestamp=..,
additional_info=..)`; an exception from either step aborts the source. -/
def fetchScored (src : PySource) : PyResult (List TrendMetadata) :=
  match src.fetch_trends with
  | .exn e => .exn e
  | .ok ts =>
      pyMapM (fun t =>
        match src.score_trend t with
        | .exn e => .exn e
        | .ok q => .ok { t with score := q }) ts

/-- What one source adds to `self._current_trends`
(`trend_context.py` lines 100-117): its scored records filtered by
`min_score` on success, nothing when fetching or scoring raised (the
`except Exception` clause only logs and continues). -/
def sourceContribution (min_score : ℚ) (src : PySource) :
    List TrendMetadata :=
  match fetchScored src with
  | .ok scored => filter_trends scored min_score
  | .exn _ => []

/-- The `for source in self._sources` accumulation of
`TrendContext.update_trends` (`trend_context.py` lines 99-117). -/
def updateLoop (min_score : ℚ) : List PySource → List TrendMetadata
  | [] => []
  | s :: rest => sourceContribution min_score s ++ updateLoop min_score rest

/-- The comparator of `sorted(self._current_trends,
key=lambda x: x.score, reverse=True)` (`trend_context.py` line 120):
`a` may stay before `b` iff `a.score >= b.score`.  Python's `sorted` is
stable, as is `List.mergeSort` with this left-biased comparator. -/
def scoreGe (a b : TrendMetadata) : Bool := decide (b.score ≤ a.score)

/-- Embeds `TrendContext.update_trends` (`trend_context.py` lines 89-120):
accumulate every source's surviving records, catching per-source errors,
then return them sorted by score descending (stably). -/
def update_trends (sources : List PySource) (min_score : ℚ) :
    List TrendMetadata :=
  (updateLoop min_score sources).mergeSort scoreGe

/-- Embeds `MockTrendSource.score_trend`
(`tests/test_trend_context.py` lines 28-31) as a function of the raw
signal `volume = trend.additional_info.get('volume', 0)`:
`min(100, volume / 10000)`. -/
def mock_score (volume : ℚ) : ℚ := min 100 (volume / 10000)

/-- No position of the list starts a match of the tag regex `<[^>]+>`:
every opening bracket is either immediately followed by a closing one or
has no closing bracket anywhere after it. -/
def tagFreeB : List Char → Bool
  | [] => true
  | '<' :: rest =>
      match rest with
      | '>' :: _ => tagFreeB rest
      | _ => decide ('>' ∉ rest)
  | _ :: rest => tagFreeB rest

/-- A concrete trend record for witnesses. -/
def wTrend : TrendMetadata := { name := ltr "Bitcoin", score := 85, timestamp := 0 }


/-- A healthy source for the C3 witness: two records, scored 100 and 60. -/
def wSrcGood : PySource :=
  { fetch_trends := .ok
      [{ name := ltr "Bitcoin", score := 0, timestamp := 0,
         additional_info := some [(ltr "volume", 1000000)] },
       { name := ltr "Ethereum", score := 0, timestamp := 0,
         additional_info := some [(ltr "volume", 500000)] }],
    score_trend := fun t =>
      .ok (if t.name = ltr "Bitcoin" then 100 else 60) }

/-- A source whose fetch raises, for the C3 witness. -/
def wSrcFail : PySource :=
  { fetch_trends := .exn (.valueError (ltr "connection error")),
    score_trend := fun _ => .ok 0 }

/-- The concrete record for the C7 witness. -/
def k7d : List ((List Char) × PyVal) := [(ltr "name", .str (ltr "bitcoin crypto bitcoin"))]

/-- The keyword pool gathered from `k7d`. -/
def k7pool : List (List Char) := [ltr "bitcoin", ltr "crypto", ltr "bitcoin"]

/-- The keywords extracted from `k7d`. -/
def k7res : List (List Char) := [ltr "bitcoin", ltr "crypto"]


/-! ### Evaluation checks -/

example : sanitize_core (ltr "<b>Hello</b> World") = ltr "Hello World" := by decide
example : sanitize_core (ltr "&lt;script&gt;") = ltr "<script>" := by decide
example : sanitize_core (ltr "  Test  ") = ltr "Test" := by decide
example : sanitize_core (sanitize_core (ltr "&lt;script&gt;")) = [] := by decide

example : pySplit (ltr "  a  bc ") = [ltr "a", ltr "bc"] := by decide

example :
    TrendContextSanitizer.extract_keywords
      (.dict [(ltr "name", .str (ltr "Bitcoin Crypto Revolution")),
              (ltr "keywords", .list [.str (ltr "blockchain"),
                                      .str (ltr "<script>hack</script>")]),
              (ltr "description", .str (ltr "Decentralized finance platform"))])
      10 =
    .ok [ltr "blockchain", ltr "hack", ltr "bitcoin", ltr "crypto",
         ltr "revolution", ltr "decentralized", ltr "finance", ltr "platform"] :=
  by decide

example :
    TrendContextSanitizer.extract_keywords (.dict [(ltr "name", .num 42)]) 10 =
      .exn .attributeError := by decide

example : TrendContextSanitizer.extract_keywords .pynone 10 = .ok [] := by decide

example :
    TrendContextSanitizer.validate_trend_context
      (.dict [(ltr "name", .str (ltr "<b>Bitcoin</b> Trend")),
              (ltr "volume", .num 1000),
              (ltr "extra_field", .str (ltr "Ignored")),
              (ltr "keywords", .list [.str (ltr "crypto"),
                                      .str (ltr "<script>alert()</script>")])]) =
    .dict [(ltr "name", .str (ltr "Bitcoin Trend")),
           (ltr "volume", .num 1000),
           (ltr "keywords", .list [.str (ltr "crypto"), .str (ltr "alert()")])] :=
  by rfl


example :
    TrendContextValidator.validate_relevance_score (.num 120) = .ok 100 := by
  decide


/-! ### Sanitizer pipeline lemmas -/

/-- After a lone opening bracket whose tail has no closing bracket, no tag
can start. -/
theorem tagFreeB_lt_cons (rest : List Char) (h : '>' ∉ rest) :
    tagFreeB ('<' :: rest) = true := by
  rw [tagFreeB.eq_3 rest (fun tail heq => h (by simp [heq]))]
  simpa using h

/-- A list without a closing bracket contains no tag. -/
theorem no_gt_tagFree : ∀ (l : List Char), '>' ∉ l → tagFreeB l = true
  | [], _ => rfl
  | c :: rest, h => by
      by_cases hc : c = '<'
      · subst hc
        exact tagFreeB_lt_cons rest (fun hm => h (by simp [hm]))
      · rw [tagFreeB.eq_4 c rest (fun hcc => hc hcc)]
        exact no_gt_tagFree rest (fun hm => h (by simp [hm]))

mutual

/-- Tag stripping only removes characters. -/
theorem stripTags_sublist : ∀ (l : List Char), List.Sublist (stripTags l) l
  | [] => by simp [stripTags]
  | c :: rest => by
      by_cases hc : c = '<'
      · subst hc
        simp only [stripTags, if_pos rfl]
        exact openTag_sublist rest
      · simp only [stripTags, if_neg hc]
        exact (stripTags_sublist rest).cons₂ c
termination_by l => l.length

/-- The open-bracket state only removes characters of the candidate tag. -/
theorem openTag_sublist : ∀ (l : List Char), List.Sublist (openTag l) ('<' :: l)
  | [] => by simp [openTag]
  | c :: rest => by
      by_cases hc : c = '>'
      · subst hc
        simp only [openTag, if_pos rfl]
        exact ((stripTags_sublist rest).cons₂ '>').cons₂ '<'
      · simp only [openTag, if_neg hc]
        simpa using inTag_sublist [c] rest
termination_by l => l.length

/-- The in-tag state only removes characters of the candidate tag. -/
theorem inTag_sublist : ∀ (acc l : List Char),
    List.Sublist (inTag acc l) ('<' :: (acc.reverse ++ l))
  | acc, [] => by simp [inTag]
  | acc, c :: rest => by
      by_cases hc : c = '>'
      · subst hc
        simp only [inTag, if_pos rfl]
        exact (stripTags_sublist rest).trans
          (((List.sublist_cons_self '>' rest).trans
            (List.sublist_append_right acc.reverse ('>' :: rest))).trans
            (List.sublist_cons_self '<' _))
      · simp only [inTag, if_neg hc]
        simpa [List.append_assoc] using inTag_sublist (c :: acc) rest
termination_by _ l => l.length

end

mutual

/-- The output of tag stripping contains no tag. -/
theorem stripTags_tagFree : ∀ (l : List Char), tagFreeB (stripTags l) = true
  | [] => rfl
  | c :: rest => by
      by_cases hc : c = '<'
      · subst hc
        simp only [stripTags, if_pos rfl]
        exact openTag_tagFree rest
      · simp only [stripTags, if_neg hc]
        rw [tagFreeB.eq_4 c _ (fun h => hc h)]
        exact stripTags_tagFree rest
termination_by l => l.length

/-- The output of the open-bracket state contains no tag. -/
theorem openTag_tagFree : ∀ (l : List Char), tagFreeB (openTag l) = true
  | [] => by decide
  | c :: rest => by
      by_cases hc : c = '>'
      · subst hc
        rw [show openTag ('>' :: rest) = '<' :: '>' :: stripTags rest from by
          simp [openTag]]
        rw [tagFreeB.eq_2, tagFreeB.eq_4 '>' _ (by decide)]
        exact stripTags_tagFree rest
      · simp only [openTag, if_neg hc]
        exact inTag_tagFree [c] rest (by simpa using fun h => hc h.symm)
termination_by l => l.length

/-- The output of the in-tag state contains no tag, provided the consumed
characters contain no closing bracket. -/
theorem inTag_tagFree : ∀ (acc l : List Char), '>' ∉ acc →
    tagFreeB (inTag acc l) = true
  | acc, [], hacc => by
      simp only [inTag]
      exact tagFreeB_lt_cons acc.reverse (by simpa using hacc)
  | acc, c :: rest, hacc => by
      by_cases hc : c = '>'
      · subst hc
        simp only [inTag, if_pos rfl]
        exact stripTags_tagFree rest
      · simp only [inTag, if_neg hc]
        refine inTag_tagFree (c :: acc) rest ?_
        intro hm
        rcases List.mem_cons.mp hm with h | h
        · exact hc h.symm
        · exact hacc h
termination_by _ l => l.length

end

/-- With no closing bracket left, the in-tag state emits everything it
consumed, unchanged. -/
theorem inTag_no_gt : ∀ (l acc : List Char), '>' ∉ l →
    inTag acc l = '<' :: (acc.reverse ++ l)
  | [], acc, _ => by simp [inTag]
  | c :: rest, acc, h => by
      have hc : c ≠ '>' := fun hcc => h (by simp [hcc])
      simp only [inTag, if_neg hc]
      rw [inTag_no_gt rest (c :: acc) (fun hm => h (by simp [hm]))]
      simp

/-- Tag stripping fixes every tag-free list. -/
theorem stripTags_of_tagFree (l : List Char) (h : tagFreeB l = true) :
    stripTags l = l := by
  induction l using tagFreeB.induct with
  | case1 => rfl
  | case2 tail ih =>
      rw [tagFreeB.eq_2] at h
      have h2 := ih h
      rw [show stripTags ('>' :: tail) = '>' :: stripTags tail from by
        simp [stripTags]] at h2
      injection h2 with _ h3
      simp [stripTags, openTag, h3]
  | case3 rest hne =>
      rw [tagFreeB.eq_3 rest hne] at h
      have hmem : '>' ∉ rest := by simpa using h
      cases rest with
      | nil => simp [stripTags, openTag]
      | cons c r =>
          have hc : c ≠ '>' := fun hcc => hmem (by simp [hcc])
          simp only [stripTags, if_pos rfl, openTag, if_neg hc]
          rw [inTag_no_gt r [c] (fun hm => hmem (by simp [hm]))]
          simp
  | case4 head rest hne ih =>
      have hh : head ≠ '<' := fun hcc => hne hcc
      rw [tagFreeB.eq_4 head rest hne] at h
      simp [stripTags, if_neg hh, ih h]

/-- Tag-freeness survives any character filter that keeps closing
brackets. -/
theorem tagFree_filter (p : Char → Bool) (hp : p '>' = true) :
    ∀ (l : List Char), tagFreeB l = true → tagFreeB (List.filter p l) = true := by
  intro l
  induction l using tagFreeB.induct with
  | case1 => intro _; rfl
  | case2 tail ih =>
      intro h
      rw [tagFreeB.eq_2] at h
      have h2 := ih h
      rw [show List.filter p ('>' :: tail) = '>' :: List.filter p tail from by
        simp [List.filter_cons, hp]] at h2
      by_cases h1 : p '<' = true
      · rw [show List.filter p ('<' :: '>' :: tail) =
            '<' :: '>' :: List.filter p tail from by
          simp [List.filter_cons, hp, h1]]
        rw [tagFreeB.eq_2]
        rw [tagFreeB.eq_4 '>' _ (by decide)] at h2 ⊢
        exact h2
      · rw [show List.filter p ('<' :: '>' :: tail) =
            '>' :: List.filter p tail from by
          simp [List.filter_cons, hp, h1]]
        rw [tagFreeB.eq_4 '>' _ (by decide)] at h2 ⊢
        exact h2
  | case3 rest hne =>
      intro h
      rw [tagFreeB.eq_3 rest hne] at h
      have hmem : '>' ∉ rest := by simpa using h
      have hmem2 : '>' ∉ List.filter p rest :=
        fun hm => hmem (List.mem_of_mem_filter hm)
      by_cases h1 : p '<' = true
      · rw [show List.filter p ('<' :: rest) = '<' :: List.filter p rest from by
          simp [List.filter_cons, h1]]
        exact tagFreeB_lt_cons _ hmem2
      · rw [show List.filter p ('<' :: rest) = List.filter p rest from by
          simp [List.filter_cons, h1]]
        exact no_gt_tagFree _ hmem2
  | case4 head rest hne ih =>
      intro h
      rw [tagFreeB.eq_4 head rest hne] at h
      by_cases h1 : p head = true
      · rw [show List.filter p (head :: rest) = head :: List.filter p rest from by
          simp [List.filter_cons, h1]]
        rw [tagFreeB.eq_4 head _ hne]
        exact ih h
      · rw [show List.filter p (head :: rest) = List.filter p rest from by
          simp [List.filter_cons, h1]]
        exact ih h

/-- A tag-free list stays tag-free after dropping its head opening
bracket. -/
theorem tagFree_of_lt_cons (l : List Char) (h : tagFreeB ('<' :: l) = true) :
    tagFreeB l = true := by
  cases l with
  | nil => rfl
  | cons c w =>
      by_cases hc : c = '>'
      · subst hc
        rw [tagFreeB.eq_2] at h
        exact h
      · rw [tagFreeB.eq_3 (c :: w)
          (fun tail heq => hc (by injection heq))] at h
        exact no_gt_tagFree _ (by simpa using h)

/-- Tag-freeness passes to the right part of a concatenation. -/
theorem tagFree_append_right :
    ∀ (a b : List Char), tagFreeB (a ++ b) = true → tagFreeB b = true := by
  intro a
  induction a using tagFreeB.induct with
  | case1 => intro b h; exact h
  | case2 tail ih =>
      intro b h
      refine ih b ?_
      rw [show ('>' :: tail) ++ b = '>' :: (tail ++ b) from rfl]
      rw [show ('<' :: '>' :: tail) ++ b = '<' :: '>' :: (tail ++ b) from rfl,
        tagFreeB.eq_2] at h
      exact h
  | case3 rest hne =>
      intro b h
      cases rest with
      | nil => exact tagFree_of_lt_cons b (by simpa using h)
      | cons c r =>
          have hc : c ≠ '>' := fun hcc => hne r (by rw [hcc])
          rw [show ('<' :: c :: r) ++ b = '<' :: (c :: (r ++ b)) from rfl] at h
          rw [tagFreeB.eq_3 _
            (fun tail heq => hc (by injection heq))] at h
          have hm : '>' ∉ (c :: (r ++ b)) := by simpa using h
          exact no_gt_tagFree b (fun hmm => hm (by simp [hmm]))
  | case4 head rest hne ih =>
      intro b h
      rw [List.cons_append, tagFreeB.eq_4 head _ hne] at h
      exact ih b h

/-- Tag-freeness passes to the left part of a concatenation. -/
theorem tagFree_append_left :
    ∀ (a b : List Char), tagFreeB (a ++ b) = true → tagFreeB a = true := by
  intro a
  induction a using tagFreeB.induct with
  | case1 => intro _ _; rfl
  | case2 tail ih =>
      intro b h
      rw [show ('<' :: '>' :: tail) ++ b = '<' :: '>' :: (tail ++ b) from rfl,
        tagFreeB.eq_2] at h
      rw [tagFreeB.eq_2]
      exact ih b h
  | case3 rest hne =>
      intro b h
      rw [tagFreeB.eq_3 rest hne]
      cases rest with
      | nil => decide
      | cons c r =>
          have hc : c ≠ '>' := fun hcc => hne r (by rw [hcc])
          rw [show ('<' :: c :: r) ++ b = '<' :: (c :: (r ++ b)) from rfl] at h
          rw [tagFreeB.eq_3 _
            (fun tail heq => hc (by injection heq))] at h
          have hm : '>' ∉ (c :: (r ++ b)) := by simpa using h
          have hm2 : '>' ∉ (c :: r) := by
            intro hmm
            apply hm
            rcases List.mem_cons.mp hmm with h1 | h1
            · exact List.mem_cons.mpr (Or.inl h1)
            · exact List.mem_cons.mpr (Or.inr (List.mem_append_left b h1))
          simpa using hm2
  | case4 head rest hne ih =>
      intro b h
      rw [List.cons_append, tagFreeB.eq_4 head _ hne] at h
      rw [tagFreeB.eq_4 head _ hne]
      exact ih b h

/-- HTML entity decoding fixes every string without an ampersand. -/
theorem unescape_of_no_amp : ∀ (l : List Char), '&' ∉ l → unescapeHtml l = l
  | [], _ => rfl
  | c :: r, h => by
      have hc : c ≠ '&' := fun hcc => h (by simp [hcc])
      have hr : '&' ∉ r := fun hm => h (by simp [hm])
      rw [unescapeHtml.eq_6 c r (fun _ hcc _ => hc hcc) (fun _ hcc _ => hc hcc)
        (fun _ hcc _ => hc hcc) (fun _ hcc _ => hc hcc)]
      rw [unescape_of_no_amp r hr]

/-- Dropping a satisfied prefix twice is the same as dropping it once. -/
theorem dropWhile_idem (p : Char → Bool) (l : List Char) :
    List.dropWhile p (List.dropWhile p l) = List.dropWhile p l := by
  induction l with
  | nil => rfl
  | cons c r ih =>
      by_cases hc : p c = true
      · simp [List.dropWhile_cons, hc, ih]
      · simp [List.dropWhile_cons, hc]

/-- The head surviving `dropWhile` falsifies the predicate. -/
theorem dropWhile_head_false (p : Char → Bool) :
    ∀ (l : List Char) (c : Char) (r : List Char),
      List.dropWhile p l = c :: r → p c = false
  | [], c, r, h => by cases h
  | a :: l, c, r, h => by
      by_cases ha : p a = true
      · rw [List.dropWhile_cons, if_pos ha] at h
        exact dropWhile_head_false p l c r h
      · rw [List.dropWhile_cons, if_neg ha] at h
        injection h with h1 _
        rw [← h1]
        exact Bool.eq_false_iff.mpr ha

/-- Whitespace stripping yields a prefix of the left-trimmed list. -/
theorem pyStrip_prefix_dropWhile (l : List Char) :
    (pyStrip l) <+: (List.dropWhile pyIsSpace l) := by
  rw [← List.reverse_suffix]
  show ((List.dropWhile pyIsSpace l).reverse.dropWhile pyIsSpace).reverse.reverse
      <:+ (List.dropWhile pyIsSpace l).reverse
  rw [List.reverse_reverse]
  exact List.dropWhile_suffix pyIsSpace

/-- Whitespace stripping only removes characters (from the two ends). -/
theorem pyStrip_sublist (l : List Char) : List.Sublist (pyStrip l) l :=
  (pyStrip_prefix_dropWhile l).sublist.trans (List.dropWhile_suffix pyIsSpace).sublist

/-- Tag-freeness survives whitespace stripping. -/
theorem tagFree_pyStrip (l : List Char) (h : tagFreeB l = true) :
    tagFreeB (pyStrip l) = true := by
  obtain ⟨a, ha⟩ := List.dropWhile_suffix (l := l) pyIsSpace
  have h1 : tagFreeB (List.dropWhile pyIsSpace l) = true :=
    tagFree_append_right a _ (by rw [ha]; exact h)
  obtain ⟨b, hb⟩ := pyStrip_prefix_dropWhile l
  exact tagFree_append_left _ b (by rw [hb]; exact h1)

/-- Whitespace stripping is idempotent. -/
theorem pyStrip_idem (l : List Char) : pyStrip (pyStrip l) = pyStrip l := by
  have h1 : List.dropWhile pyIsSpace (pyStrip l) = pyStrip l := by
    cases hBr : pyStrip l with
    | nil => rfl
    | cons c r =>
        have hpre := pyStrip_prefix_dropWhile l
        rw [hBr] at hpre
        obtain ⟨t, ht⟩ := hpre
        have hc : pyIsSpace c = false :=
          dropWhile_head_false pyIsSpace l c (r ++ t) (by rw [← ht]; rfl)
        simp [List.dropWhile_cons, hc]
  show ((List.dropWhile pyIsSpace (pyStrip l)).reverse.dropWhile
      pyIsSpace).reverse = pyStrip l
  rw [h1]
  show ((((l.dropWhile pyIsSpace).reverse.dropWhile
      pyIsSpace).reverse).reverse.dropWhile pyIsSpace).reverse = pyStrip l
  rw [List.reverse_reverse, dropWhile_idem]
  rfl

/-- A tag-free, ampersand-free, printable, control-free, trimmed string is
a fixed point of the sanitization pipeline. -/
theorem sanitize_core_fix (y : List Char) (htf : tagFreeB y = true)
    (hamp : '&' ∉ y)
    (hpr : ∀ c ∈ y, pyIsPrintable c = true)
    (hnc : ∀ c ∈ y, (!isCtrlChar c) = true)
    (hst : pyStrip y = y) : sanitize_core y = y := by
  simp only [sanitize_core, nfkdNormalize]
  rw [stripTags_of_tagFree _ htf, unescape_of_no_amp _ hamp,
    List.filter_eq_self.mpr hnc, List.filter_eq_self.mpr hpr, hst]

/-- On an ampersand-free string the sanitization pipeline is idempotent:
entity decoding is the identity, the first pass leaves a tag-free,
control-free, printable, trimmed string, and each stage of the second
pass fixes it. -/
theorem sanitize_core_idem (s : List Char) (hamp : '&' ∉ s) :
    sanitize_core (sanitize_core s) = sanitize_core s := by
  have hampt : '&' ∉ stripTags s := fun h => hamp ((stripTags_sublist s).subset h)
  have h1 : sanitize_core s =
      pyStrip (List.filter pyIsPrintable
        (List.filter (fun c => !isCtrlChar c) (stripTags s))) := by
    simp only [sanitize_core, nfkdNormalize]
    rw [unescape_of_no_amp _ hampt]
  have hysub : List.Sublist (sanitize_core s)
      (List.filter pyIsPrintable
        (List.filter (fun c => !isCtrlChar c) (stripTags s))) := by
    rw [h1]; exact pyStrip_sublist _
  have hprops : ∀ c ∈ sanitize_core s,
      pyIsPrintable c = true ∧ (!isCtrlChar c) = true := by
    intro c hc
    have hm := hysub.subset hc
    have hm2 : c ∈ List.filter (fun c => !isCtrlChar c) (stripTags s) :=
      List.mem_of_mem_filter hm
    exact ⟨(List.mem_filter.mp hm).2, by simpa using (List.mem_filter.mp hm2).2⟩
  have hamp_y : '&' ∉ sanitize_core s := by
    intro hm
    exact hampt ((List.filter_sublist _).subset
      ((List.filter_sublist _).subset (hysub.subset hm)))
  have htf : tagFreeB (sanitize_core s) = true := by
    rw [h1]
    exact tagFree_pyStrip _
      (tagFree_filter pyIsPrintable (by decide) _
        (tagFree_filter _ (by decide) _ (stripTags_tagFree s)))
  refine sanitize_core_fix _ htf hamp_y (fun c hc => (hprops c hc).1)
    (fun c hc => (hprops c hc).2) ?_
  rw [h1]
  exact pyStrip_idem _


/-! ### Claims -/

/-- C2 (code bug): the claim — and the repository's own test
`test_validate_trend_context_invalid_score` — require the Validator to
raise for a relevance score outside `[0,100]`, but
`_validate_relevance_score` silently clamps: 120 and 101 are accepted as
100, -1 is accepted as 0.  Only a value that cannot be coerced to a
number raises. -/
theorem claim_C2_score_clamped :
    TrendContextValidator.validate_relevance_score (.num 120) = .ok 100 ∧
    TrendContextValidator.validate_relevance_score (.num 101) = .ok 100 ∧
    TrendContextValidator.validate_relevance_score (.num (-1)) = .ok 0 ∧
    TrendContextValidator.validate_relevance_score .pynone =
      .exn (.valueError (ltr "Relevance score must be a number")) := by
  decide

/-- C4 (confirmed): `_validate_timestamp` assigns the current time when
the timestamp is absent; a present timestamp must parse and satisfy
`now - 365 days ≤ t ≤ now`, and otherwise a `ValueError` is raised. -/
theorem claim_C4_timestamp (now t : ℤ) :
    TrendContextValidator.validate_timestamp now .noneV = .ok now ∧
    (TrendContextValidator.validate_timestamp now (.dtV t) = .ok t ↔
      now - days365 ≤ t ∧ t ≤ now) ∧
    (TrendContextValidator.validate_timestamp now (.rawV (some t)) = .ok t ↔
      now - days365 ≤ t ∧ t ≤ now) ∧
    (¬ (now - days365 ≤ t ∧ t ≤ now) →
      TrendContextValidator.validate_timestamp now (.dtV t) =
        .exn (.valueError (ltr "Invalid timestamp format"))) ∧
    TrendContextValidator.validate_timestamp now (.rawV none) =
      .exn (.valueError (ltr "Invalid timestamp format")) := by
  refine ⟨rfl, ?_, ?_, ?_, rfl⟩ <;>
      simp only [TrendContextValidator.validate_timestamp] <;> split <;>
      rename_i h <;> simp at h ⊢ <;> omega

/-- Witness for C4: with `now = 0`, a timestamp two days in the future is
rejected, a timestamp 400 days in the past is rejected, and an absent
timestamp yields `now`. -/
theorem claim_C4_witness :
    TrendContextValidator.validate_timestamp 0 (.dtV (2 * microsPerDay)) =
      .exn (.valueError (ltr "Invalid timestamp format")) ∧
    TrendContextValidator.validate_timestamp 0 (.dtV (-400 * microsPerDay)) =
      .exn (.valueError (ltr "Invalid timestamp format")) ∧
    TrendContextValidator.validate_timestamp 0 .noneV = .ok 0 :=
  ⟨(claim_C4_timestamp 0 (2 * microsPerDay)).2.2.2.1
      (by simp [days365, microsPerDay]),
   (claim_C4_timestamp 0 (-400 * microsPerDay)).2.2.2.1
      (by simp [days365, microsPerDay]),
   (claim_C4_timestamp 0 0).1⟩

/-- C5 (code bug): the claim — and the repository's own test
`test_validate_trend_context_topic_validation` — require a topic longer
than 200 characters after sanitization to be rejected, but
`_validate_topic` truncates it to its first 200 characters and accepts
it.  A topic that is empty after sanitization does raise. -/
theorem claim_C5_topic_truncated :
    TrendContextValidator.validate_topic (.str (List.replicate 201 'a')) =
      .ok (List.replicate 200 'a') ∧
    TrendContextValidator.validate_topic (.str (ltr "<b></b>")) =
      .exn (.valueError (ltr "Topic cannot be empty after sanitization")) := by
  decide

/-- C8 (confirmed): `ITrendSource.filter_trends` returns a subsequence of
its input (hence in unchanged relative order, never re-sorted), and every
retained trend has `score ≥ min_score`. -/
theorem claim_C8_filter (trends : List TrendMetadata) (m : ℚ) :
    List.Sublist (filter_trends trends m) trends ∧
    ∀ t ∈ filter_trends trends m, m ≤ t.score := by
  refine ⟨List.filter_sublist _, fun t ht => ?_⟩
  simpa using List.of_mem_filter ht

/-- Witness for C8 at a concrete list and threshold. -/
theorem claim_C8_witness :
    List.Sublist (filter_trends [wTrend] 50) [wTrend] ∧ 50 ≤ wTrend.score :=
  ⟨(claim_C8_filter [wTrend] 50).1,
   (claim_C8_filter [wTrend] 50).2 wTrend (by decide)⟩

/-- C9 (confirmed): the mock scorer `min(100, volume / 10000)` maps every
raw signal `s ≥ 0` into `[0, 100]` and is monotonically non-decreasing. -/
theorem claim_C9_mock_score (s₁ s₂ : ℚ) (h0 : 0 ≤ s₁) :
    0 ≤ mock_score s₁ ∧ mock_score s₁ ≤ 100 ∧
    (s₁ ≤ s₂ → mock_score s₁ ≤ mock_score s₂) := by
  refine ⟨le_min (by norm_num) (by positivity), min_le_left _ _, fun h => ?_⟩
  have : s₁ / 10000 ≤ s₂ / 10000 := by gcongr
  exact min_le_min le_rfl this

/-- Witness for C9: the signal volume 1,000,000 of the spec's example
scores within bounds, and the Ethereum volume 500,000 does not outrank
it. -/
theorem claim_C9_witness :
    0 ≤ mock_score 1000000 ∧ mock_score 1000000 ≤ 100 ∧
    mock_score 500000 ≤ mock_score 1000000 :=
  ⟨(claim_C9_mock_score 1000000 1000000 (by norm_num)).1,
   (claim_C9_mock_score 1000000 1000000 (by norm_num)).2.1,
   (claim_C9_mock_score 500000 1000000 (by norm_num)).2.2 (by norm_num)⟩

/-- The descending-score comparator is transitive. -/
theorem scoreGe_trans (a b c : TrendMetadata)
    (h1 : scoreGe a b = true) (h2 : scoreGe b c = true) : scoreGe a c = true := by
  simp only [scoreGe, decide_eq_true_eq] at *
  exact le_trans h2 h1

/-- The descending-score comparator is total. -/
theorem scoreGe_total (a b : TrendMetadata) :
    (scoreGe a b || scoreGe b a) = true := by
  simp only [scoreGe, Bool.or_eq_true, decide_eq_true_eq]
  exact le_total b.score a.score

/-- When every source fails, the update loop accumulates nothing. -/
theorem updateLoop_eq_nil (m : ℚ) (sources : List PySource)
    (h : ∀ s ∈ sources, ∃ e, fetchScored s = .exn e) :
    updateLoop m sources = [] := by
  induction sources with
  | nil => rfl
  | cons s rest ih =>
      obtain ⟨e, he⟩ := h s (by simp)
      simp [updateLoop, sourceContribution, he,
        ih (fun x hx => h x (by simp [hx]))]

/-- Every record contributed by a registered source appears in the
accumulated loop result. -/
theorem mem_updateLoop (m : ℚ) {s : PySource} {sources : List PySource}
    (hs : s ∈ sources) {t : TrendMetadata}
    (ht : t ∈ sourceContribution m s) : t ∈ updateLoop m sources := by
  induction sources with
  | nil => cases hs
  | cons a rest ih =>
      rcases List.mem_cons.mp hs with h | h
      · subst h; exact List.mem_append_left _ ht
      · exact List.mem_append_right _ (ih h)

/-- All-pairs score equality yields the pairwise comparator. -/
theorem pairwise_scoreGe_of_eq (c : List TrendMetadata)
    (h : ∀ a ∈ c, ∀ b ∈ c, a.score = b.score) :
    c.Pairwise (fun a b => scoreGe a b = true) := by
  induction c with
  | nil => exact List.Pairwise.nil
  | cons x xs ih =>
      refine List.Pairwise.cons (fun b hb => ?_)
        (ih (fun a ha b hb => h a (by simp [ha]) b (by simp [hb])))
      simp [scoreGe, h x (by simp) b (by simp [hb])]

/-- C3 (confirmed): `TrendContext.update_trends` isolates per-source
failures.  A failing source contributes nothing; when every source fails
the result is the empty list, not an exception; every surviving record of
a non-failing source is included; the result is a permutation of the
concatenated per-source contributions, sorted by score descending; and
the sort is stable — any equal-score subsequence of the concatenation
survives in its original relative order. -/
theorem claim_C3_update (sources : List PySource) (m : ℚ) :
    (∀ s ∈ sources, (∃ e, fetchScored s = .exn e) →
        sourceContribution m s = []) ∧
    ((∀ s ∈ sources, ∃ e, fetchScored s = .exn e) →
        update_trends sources m = []) ∧
    (∀ s ∈ sources, ∀ t ∈ sourceContribution m s,
        t ∈ update_trends sources m) ∧
    (update_trends sources m).Perm (updateLoop m sources) ∧
    (update_trends sources m).Pairwise (fun a b => b.score ≤ a.score) ∧
    (∀ c : List TrendMetadata, List.Sublist c (updateLoop m sources) →
        (∀ a ∈ c, ∀ b ∈ c, a.score = b.score) →
        List.Sublist c (update_trends sources m)) := by
  refine ⟨?_, ?_, ?_, ?_, ?_, ?_⟩
  · rintro s _ ⟨e, he⟩
    simp [sourceContribution, he]
  · intro h
    show (updateLoop m sources).mergeSort scoreGe = []
    rw [updateLoop_eq_nil m sources h]
    exact (List.mergeSort_perm [] scoreGe).eq_nil
  · intro s hs t ht
    exact (List.mergeSort_perm (updateLoop m sources) scoreGe).mem_iff.mpr
      (mem_updateLoop m hs ht)
  · exact List.mergeSort_perm _ _
  · exact (List.sorted_mergeSort scoreGe_trans scoreGe_total
      (updateLoop m sources)).imp (by simp [scoreGe])
  · intro c hsub heq
    exact List.sublist_mergeSort scoreGe_trans scoreGe_total
      (pairwise_scoreGe_of_eq c heq) hsub

/-- Witness for C3: with only failing sources the update yields the empty
list, and with a healthy source alongside a failing one the healthy
source's scored records are still present. -/
theorem claim_C3_witness :
    update_trends [wSrcFail] 50 = [] ∧
    { name := ltr "Bitcoin", score := 100, timestamp := 0,
      additional_info := some [(ltr "volume", (1000000 : ℚ))] } ∈
      update_trends [wSrcGood, wSrcFail] 50 :=
  ⟨(claim_C3_update [wSrcFail] 50).2.1 (fun s hs => by
      rw [List.mem_singleton] at hs; subst hs; exact ⟨_, rfl⟩),
   (claim_C3_update [wSrcGood, wSrcFail] 50).2.2.1 wSrcGood (by simp) _
      (by decide)⟩

/-- Membership in the first-seen deduplication: the element comes from the
input and was not already seen. -/
theorem mem_dedupFirstAux {x : List Char} :
    ∀ (seen l : List (List Char)), x ∈ dedupFirstAux seen l →
      x ∈ l ∧ x ∉ seen := by
  intro seen l
  induction l generalizing seen with
  | nil => intro h; cases h
  | cons y ys ih =>
      intro h
      simp only [dedupFirstAux] at h
      split at h
      · obtain ⟨h1, h2⟩ := ih _ h
        exact ⟨by simp [h1], h2⟩
      · rcases List.mem_cons.mp h with rfl | h
        · exact ⟨by simp, by assumption⟩
        · obtain ⟨h1, h2⟩ := ih _ h
          exact ⟨by simp [h1], fun hs => h2 (by simp [hs])⟩

/-- The first-seen deduplication never emits an element twice. -/
theorem dedupFirstAux_nodup :
    ∀ (seen l : List (List Char)), (dedupFirstAux seen l).Nodup := by
  intro seen l
  induction l generalizing seen with
  | nil => exact List.nodup_nil
  | cons y ys ih =>
      simp only [dedupFirstAux]
      split
      · exact ih _
      · exact List.Nodup.cons
          (fun h => by simpa using (mem_dedupFirstAux _ _ h).2) (ih _)

/-- The first-seen deduplication is a subsequence of its input. -/
theorem dedupFirstAux_sublist :
    ∀ (seen l : List (List Char)), List.Sublist (dedupFirstAux seen l) l := by
  intro seen l
  induction l generalizing seen with
  | nil => exact List.Sublist.refl _
  | cons y ys ih =>
      simp only [dedupFirstAux]
      split
      · exact (ih seen).cons y
      · exact (ih (y :: seen)).cons₂ y

/-- Every candidate emitted by the keyword filter has length at least 2:
the filter requires `len(sanitize_string(str(kw))) > 1` and lowercasing
preserves length. -/
theorem keywordCandidates_length {w : List Char} (items : List PyVal)
    (hw : w ∈ keywordCandidates items) : 1 < w.length := by
  simp only [keywordCandidates, List.mem_filterMap] at hw
  obtain ⟨kw, _, heq⟩ := hw
  split at heq
  · rename_i hcond
    simp only [Bool.and_eq_true, decide_eq_true_eq] at hcond
    cases heq
    simpa using hcond.2
  · cases heq

/-- Every entry of the gathered keyword pool has length at least 2. -/
theorem keywordPool_length {d : List ((List Char) × PyVal)}
    {pool : List (List Char)}
    (hp : TrendContextSanitizer.keywordPool d = .ok pool)
    {w : List Char} (hw : w ∈ pool) : 1 < w.length := by
  unfold TrendContextSanitizer.keywordPool at hp
  split at hp
  · exact PyResult.noConfusion hp
  · split at hp
    · exact PyResult.noConfusion hp
    · split at hp
      · exact PyResult.noConfusion hp
      · injection hp with hp
        subst hp
        rcases List.mem_append.mp hw with h | h
        · rcases List.mem_append.mp h with h | h <;>
            exact keywordCandidates_length _ h
        · exact keywordCandidates_length _ h

/-- C7 (confirmed): on a mapping and `max_keywords > 0`, whenever
`extract_keywords` returns (the keyword pool having been gathered without
an exception), the result has at most `max_keywords` entries, no
duplicates, no entry of length ≤ 1, is a subsequence of the gathered
candidate pool (hence preserves first-seen order), and equals the
first-seen deduplication of the pool truncated to `max_keywords`. -/
theorem claim_C7_extract (d : List ((List Char) × PyVal)) (k : ℤ)
    (hk : 0 < k) (pool res : List (List Char))
    (hp : TrendContextSanitizer.keywordPool d = .ok pool)
    (hr : TrendContextSanitizer.extract_keywords (.dict d) k = .ok res) :
    (res.length : ℤ) ≤ k ∧ res.Nodup ∧ (∀ w ∈ res, 1 < w.length) ∧
    List.Sublist res pool ∧ res = (dedupFirst pool).take k.toNat := by
  have hknot : ¬ k ≤ 0 := by omega
  simp only [TrendContextSanitizer.extract_keywords, hknot, if_false, hp] at hr
  injection hr with hr
  subst hr
  have hsub : List.Sublist ((dedupFirst pool).take k.toNat) pool :=
    (List.take_sublist _ _).trans (dedupFirstAux_sublist [] pool)
  refine ⟨?_, ?_, ?_, hsub, rfl⟩
  · calc ((((dedupFirst pool).take k.toNat).length : ℕ) : ℤ)
        ≤ (k.toNat : ℤ) := by exact_mod_cast List.length_take_le _ _
      _ = k := Int.toNat_of_nonneg (le_of_lt hk)
  · exact (dedupFirstAux_nodup [] pool).sublist (List.take_sublist _ _)
  · intro w hw
    exact keywordPool_length hp (hsub.subset hw)

/-- Witness for C7 at a concrete record containing a duplicate keyword. -/
theorem claim_C7_witness :
    (k7res.length : ℤ) ≤ 10 ∧ k7res.Nodup ∧ (∀ w ∈ k7res, 1 < w.length) ∧
    List.Sublist k7res k7pool ∧
    k7res = (dedupFirst k7pool).take (10 : ℤ).toNat :=
  claim_C7_extract k7d 10 (by decide) k7pool k7res (by decide) (by decide)

/-- C6 counterexample: a mapping whose `name` is the integer 42 makes
`extract_keywords` raise `AttributeError` (`.split()` on a non-string),
refuting "returns a sequence rather than raising" for mappings with
bad-typed field values. -/
theorem claim_C6_counterexample :
    TrendContextSanitizer.extract_keywords (.dict [(ltr "name", .num 42)]) 10 =
      .exn .attributeError := by decide

/-- C6 amended (proved): `sanitize_string` is total and returns the empty
string on non-strings, and `extract_keywords` returns the empty sequence
without raising when the record is not a mapping or `max_keywords ≤ 0`;
but a mapping with bad-typed field values can raise (see the
counterexample). -/
theorem claim_C6_amended (v : PyVal) (k : ℤ) :
    (v.isStr = false → TrendContextSanitizer.sanitize_string v = []) ∧
    (v.isDict = false → TrendContextSanitizer.extract_keywords v k = .ok []) ∧
    (∀ d, v = .dict d → k ≤ 0 →
        TrendContextSanitizer.extract_keywords v k = .ok []) := by
  refine ⟨?_, ?_, ?_⟩
  · cases v <;> simp [TrendContextSanitizer.sanitize_string, PyVal.isStr]
  · cases v <;> simp [TrendContextSanitizer.extract_keywords, PyVal.isDict]
  · rintro d rfl hk
    simp [TrendContextSanitizer.extract_keywords, hk]

/-- Witness for C6 at `None`, a number and a non-positive bound. -/
theorem claim_C6_witness :
    TrendContextSanitizer.sanitize_string .pynone = [] ∧
    TrendContextSanitizer.extract_keywords (.num 3) 10 = .ok [] ∧
    TrendContextSanitizer.extract_keywords (.dict [(ltr "name", .num 42)]) 0 =
      .ok [] :=
  ⟨(claim_C6_amended .pynone 10).1 rfl,
   (claim_C6_amended (.num 3) 10).2.1 rfl,
   (claim_C6_amended (.dict [(ltr "name", .num 42)]) 0).2.2 _ rfl (by decide)⟩

/-- The key loop of the sanitizer's `validate_trend_context` is the
allowed-key filter followed by the value transformation. -/
theorem svalidateLoop_eq (xs : List ((List Char) × PyVal)) :
    TrendContextSanitizer.svalidateLoop xs =
      (xs.filter (fun p =>
        decide (p.1 ∈ TrendContextSanitizer.allowed_keys))).map
        (fun p => (p.1, TrendContextSanitizer.sanitizeValue p.2)) := by
  induction xs with
  | nil => rfl
  | cons p rest ih =>
      obtain ⟨k, v⟩ := p
      by_cases h : k ∈ TrendContextSanitizer.allowed_keys <;>
        simp [TrendContextSanitizer.svalidateLoop, h, ih, List.filter_cons]

/-- C10 counterexample: for the input
`{'description': {'a': '<b>'}}` the sanitizer stores the raw
`str()` of the nested dictionary — a string still containing the `<b>`
markup that `sanitize_string` would strip — so not every string value of
the result has been passed through `sanitize_string`. -/
theorem claim_C10_counterexample :
    TrendContextSanitizer.validate_trend_context
        (.dict [(ltr "description", .dict [(ltr "a", .str (ltr "<b>"))])]) =
      .dict [(ltr "description",
        .str (pyStr (.dict [(ltr "a", .str (ltr "<b>"))])))] ∧
    TrendContextSanitizer.sanitize_string
        (.str (pyStr (.dict [(ltr "a", .str (ltr "<b>"))]))) ≠
      pyStr (.dict [(ltr "a", .str (ltr "<b>"))]) := by
  exact ⟨rfl, by decide⟩

/-- C10 amended (proved): `validate_trend_context` keeps only the keys
`name`, `volume`, `sentiment`, `keywords`, `description` (silently
dropping the rest), maps non-mappings to the empty mapping, and sanitizes
input string values — but values of other non-numeric types are
stringified without sanitization (see the counterexample). -/
theorem claim_C10_amended (xs : List ((List Char) × PyVal)) :
    (∀ v : PyVal, v.isDict = false →
        TrendContextSanitizer.validate_trend_context v = .dict []) ∧
    TrendContextSanitizer.validate_trend_context (.dict xs) =
      .dict ((xs.filter (fun p =>
        decide (p.1 ∈ TrendContextSanitizer.allowed_keys))).map
        (fun p => (p.1, TrendContextSanitizer.sanitizeValue p.2))) ∧
    (∀ p ∈ TrendContextSanitizer.svalidateLoop xs,
        p.1 ∈ TrendContextSanitizer.allowed_keys) ∧
    (∀ k s, (k, PyVal.str s) ∈ xs →
        k ∈ TrendContextSanitizer.allowed_keys →
        (k, PyVal.str (sanitize_core s)) ∈
          TrendContextSanitizer.svalidateLoop xs) := by
  refine ⟨?_, ?_, ?_, ?_⟩
  · intro v hv
    cases v <;> simp_all [TrendContextSanitizer.validate_trend_context,
      PyVal.isDict]
  · simp only [TrendContextSanitizer.validate_trend_context, svalidateLoop_eq]
  · intro p hp
    rw [svalidateLoop_eq] at hp
    obtain ⟨q, hq, hqe⟩ := List.mem_map.mp hp
    have := List.of_mem_filter hq
    simp only [decide_eq_true_eq] at this
    rw [← hqe]
    exact this
  · intro k s hks hk
    induction xs with
    | nil => cases hks
    | cons p rest ih =>
        rcases List.mem_cons.mp hks with rfl | h
        · simp [TrendContextSanitizer.svalidateLoop, hk,
            TrendContextSanitizer.sanitizeValue]
        · obtain ⟨k2, v2⟩ := p
          by_cases h2 : k2 ∈ TrendContextSanitizer.allowed_keys <;>
            simp [TrendContextSanitizer.svalidateLoop, h2, ih h]

/-- Witness for C10: a string value under an allowed key is stored
sanitized. -/
theorem claim_C10_witness :
    (ltr "name", PyVal.str (sanitize_core (ltr "<b>hi</b>"))) ∈
      TrendContextSanitizer.svalidateLoop
        [(ltr "name", .str (ltr "<b>hi</b>"))] :=
  (claim_C10_amended [(ltr "name", .str (ltr "<b>hi</b>"))]).2.2.2
    (ltr "name") (ltr "<b>hi</b>") (List.mem_singleton.mpr rfl) (by decide)

/-- C1 counterexample: sanitization is not idempotent.  Entity decoding
runs after tag stripping, so `sanitize_string('&lt;script&gt;')` returns
`'<script>'` (asserted by the repository's own test `test_sanitize_string`),
and a second pass strips that tag away entirely. -/
theorem claim_C1_counterexample :
    TrendContextSanitizer.sanitize_string (.str (ltr "&lt;script&gt;")) =
      ltr "<script>" ∧
    TrendContextSanitizer.sanitize_string
      (.str (TrendContextSanitizer.sanitize_string
        (.str (ltr "&lt;script&gt;")))) = [] ∧
    TrendContextSanitizer.sanitize_string
      (.str (TrendContextSanitizer.sanitize_string
        (.str (ltr "&lt;script&gt;")))) ≠
      TrendContextSanitizer.sanitize_string (.str (ltr "&lt;script&gt;")) := by
  refine ⟨by decide, by decide, by decide⟩

/-- C1 amended (proved): sanitization is idempotent on every input that is
not a string, and on every ASCII string containing no ampersand (so that
entity decoding cannot re-introduce markup for a second pass to strip). -/
theorem claim_C1_amended (v : PyVal)
    (h : ∀ s, v = .str s → (∀ c ∈ s, c.toNat < 128) ∧ '&' ∉ s) :
    TrendContextSanitizer.sanitize_string
      (.str (TrendContextSanitizer.sanitize_string v)) =
      TrendContextSanitizer.sanitize_string v := by
  cases v with
  | str s => exact sanitize_core_idem s (h s rfl).2
  | num q => rfl
  | pynone => rfl
  | list xs => rfl
  | dict xs => rfl

/-- Witness for C1 at a concrete ASCII, ampersand-free string. -/
theorem claim_C1_witness :
    TrendContextSanitizer.sanitize_string
      (.str (TrendContextSanitizer.sanitize_string
        (.str (ltr " a  b<c ")))) =
      TrendContextSanitizer.sanitize_string (.str (ltr " a  b<c ")) :=
  claim_C1_amended (.str (ltr " a  b<c "))
    (fun s hs => by
      injection hs with h1
      subst h1
      exact ⟨by decide, by decide⟩)
